import Mathlib

/-!
Verification of the parallel block-validation core and expedited-peer
connection manager (`parallel.h`, `connmgr.cpp`, `expedited.h`).

Shallow embedding conventions:
* A `CNode_ptr` is modelled by its node id (`Nat`); peer capability queries
  (`ThinBlockCapable`) and the global `IsThinBlocksEnabled()` switch are
  passed as explicit boolean parameters.
* The three peer vectors of `CConnMgr` are Lean lists; `std::find` is list
  membership, `push_back` is append, single-element `erase` is `List.erase`.
* Side effects (the wire message pushed by `PushExpeditedRequest`) are
  returned explicitly in the result record.
* Machine integers: the `uint8_t` narrowing in `CAllScriptCheckQueues::Size`
  is an explicit `% 256`; the other counters cannot overflow in the
  modelled states and are plain `Nat`.
-/

namespace BitcoinPV

/-! ### Flags from `expedited.h` -/

def EXPEDITED_STOP : Nat := 1
def EXPEDITED_BLOCKS : Nat := 2
def EXPEDITED_TXNS : Nat := 4

/-! ### Connection manager (`connmgr.cpp`) -/

/-- A peer reference, identified by its node id. -/
abbrev CNodePtr := Nat

/-- `FindNode`: membership test on a peer vector (`std::find` against `end()`). -/
def FindNode (vNodes : List CNodePtr) (pnode : CNodePtr) : Bool :=
  decide (pnode ∈ vNodes)

/-- `AddNode`: append a peer to a vector (takes a reference; does NOT itself
prevent duplicates — every call site checks membership first). -/
def AddNode (vNodes : List CNodePtr) (pnode : CNodePtr) : List CNodePtr :=
  vNodes ++ [pnode]

/-- `RemoveNode`: if the peer is present, erase its (first) occurrence and
report `true`; otherwise leave the vector unchanged and report `false`. -/
def RemoveNode (vNodes : List CNodePtr) (pnode : CNodePtr) : List CNodePtr × Bool :=
  if pnode ∈ vNodes then (vNodes.erase pnode, true) else (vNodes, false)

/-- The peer-fanout registry state of `CConnMgr`: the three peer vectors and
the two configurable capacity limits. -/
structure CConnMgr where
  vSendExpeditedBlocks : List CNodePtr
  vSendExpeditedTxs : List CNodePtr
  vExpeditedUpstream : List CNodePtr
  nExpeditedBlocksMax : Nat
  nExpeditedTxsMax : Nat
deriving DecidableEq, Repr

/-- The freshly constructed registry: empty vectors, both maxima 32
(`CConnMgr::CConnMgr`). -/
def CConnMgr.init : CConnMgr :=
  { vSendExpeditedBlocks := []
    vSendExpeditedTxs := []
    vExpeditedUpstream := []
    nExpeditedBlocksMax := 32
    nExpeditedTxsMax := 32 }

/-- `CConnMgr::EnableExpeditedSends`: add the peer to the blocks and/or txs
vector, each guarded by a membership check and, unless `fForceIfFull`, by its
capacity limit. -/
def CConnMgr.EnableExpeditedSends (s : CConnMgr) (pnode : CNodePtr)
    (fBlocks fTxs fForceIfFull : Bool) : CConnMgr :=
  let s1 :=
    if fBlocks = true ∧ pnode ∉ s.vSendExpeditedBlocks then
      if fForceIfFull = true ∨ s.vSendExpeditedBlocks.length < s.nExpeditedBlocksMax then
        { s with vSendExpeditedBlocks := AddNode s.vSendExpeditedBlocks pnode }
      else s
    else s
  if fTxs = true ∧ pnode ∉ s1.vSendExpeditedTxs then
    if fForceIfFull = true ∨ s1.vSendExpeditedTxs.length < s1.nExpeditedTxsMax then
      { s1 with vSendExpeditedTxs := AddNode s1.vSendExpeditedTxs pnode }
    else s1
  else s1

/-- `CConnMgr::DisableExpeditedSends`: remove the peer from the named
vectors if present. -/
def CConnMgr.DisableExpeditedSends (s : CConnMgr) (pnode : CNodePtr)
    (fBlocks fTxs : Bool) : CConnMgr :=
  let s1 :=
    if fBlocks = true then
      { s with vSendExpeditedBlocks := (RemoveNode s.vSendExpeditedBlocks pnode).1 }
    else s
  if fTxs = true then
    { s1 with vSendExpeditedTxs := (RemoveNode s1.vSendExpeditedTxs pnode).1 }
  else s1

/-- `CConnMgr::RemovedNode`: purge the peer from all three vectors. -/
def CConnMgr.RemovedNode (s : CConnMgr) (pnode : CNodePtr) : CConnMgr :=
  { s with
    vSendExpeditedBlocks := (RemoveNode s.vSendExpeditedBlocks pnode).1
    vSendExpeditedTxs := (RemoveNode s.vSendExpeditedTxs pnode).1
    vExpeditedUpstream := (RemoveNode s.vExpeditedUpstream pnode).1 }

/-- `CConnMgr::ExpeditedNodeCounts`: snapshot sizes of the three vectors. -/
def CConnMgr.ExpeditedNodeCounts (s : CConnMgr) : Nat × Nat × Nat :=
  (s.vSendExpeditedBlocks.length, s.vSendExpeditedTxs.length, s.vExpeditedUpstream.length)

/-- `CConnMgr::IsExpeditedUpstream`: membership test on the upstream vector. -/
def CConnMgr.IsExpeditedUpstream (s : CConnMgr) (pnode : CNodePtr) : Bool :=
  FindNode s.vExpeditedUpstream pnode

/-- Result of `CConnMgr::PushExpeditedRequest`: the boolean return value, the
registry state afterwards, and whether an `XPEDITEDREQUEST` message was
pushed to the peer. -/
structure PushResult where
  ret : Bool
  state : CConnMgr
  messageSent : Bool
deriving DecidableEq, Repr

/-- `CConnMgr::PushExpeditedRequest`: fails (no state change, no message) if
thin blocks are globally disabled or the peer is not thin-block capable;
otherwise, when the `EXPEDITED_BLOCKS` flag bit is set, removes the peer from
the upstream vector (`EXPEDITED_STOP` bit set) or adds it if absent; then
always pushes the request message and returns true. `thinBlocksEnabled`
stands for the global `IsThinBlocksEnabled()` and `thinBlockCapable` for
`pnode->ThinBlockCapable()`. -/
def CConnMgr.PushExpeditedRequest (s : CConnMgr)
    (thinBlocksEnabled thinBlockCapable : Bool)
    (pnode : CNodePtr) (flags : Nat) : PushResult :=
  if thinBlocksEnabled = false then
    { ret := false, state := s, messageSent := false }
  else if thinBlockCapable = false then
    { ret := false, state := s, messageSent := false }
  else
    let s1 :=
      if flags &&& EXPEDITED_BLOCKS ≠ 0 then
        if flags &&& EXPEDITED_STOP ≠ 0 then
          { s with vExpeditedUpstream := (RemoveNode s.vExpeditedUpstream pnode).1 }
        else
          if pnode ∈ s.vExpeditedUpstream then s
          else { s with vExpeditedUpstream := AddNode s.vExpeditedUpstream pnode }
      else s
    { ret := true, state := s1, messageSent := true }

/-- One registry operation, for stating invariants over operation sequences.
The boolean parameters of `push` supply the two external capability
queries consulted by `PushExpeditedRequest`. -/
inductive ConnOp where
  | enable (pnode : CNodePtr) (fBlocks fTxs fForceIfFull : Bool)
  | disable (pnode : CNodePtr) (fBlocks fTxs : Bool)
  | removed (pnode : CNodePtr)
  | push (thinBlocksEnabled thinBlockCapable : Bool) (pnode : CNodePtr) (flags : Nat)

/-- Apply one registry operation to a state. -/
def ConnOp.apply (s : CConnMgr) : ConnOp → CConnMgr
  | .enable p b t f => s.EnableExpeditedSends p b t f
  | .disable p b t => s.DisableExpeditedSends p b t
  | .removed p => s.RemovedNode p
  | .push e c p fl => (s.PushExpeditedRequest e c p fl).state

/-- Run a sequence of registry operations. -/
def runOps (s : CConnMgr) (ops : List ConnOp) : CConnMgr :=
  ops.foldl ConnOp.apply s

/-- A registry state reachable from the freshly constructed registry by some
sequence of operations. -/
def CConnMgr.Reachable (s : CConnMgr) : Prop :=
  ∃ ops, runOps CConnMgr.init ops = s

/-- Each peer appears at most once in each of the three membership vectors. -/
def NodupInv (s : CConnMgr) : Prop :=
  s.vSendExpeditedBlocks.Nodup ∧ s.vSendExpeditedTxs.Nodup ∧ s.vExpeditedUpstream.Nodup

/-- A sequence of non-forced enables (blocks and txs) of the given peers. -/
def enableOps (ps : List CNodePtr) : List ConnOp :=
  ps.map (fun p => ConnOp.enable p true true false)

/-- A sequence of disables (blocks and txs) of the given peers. -/
def disableOps (qs : List CNodePtr) : List ConnOp :=
  qs.map (fun q => ConnOp.disable q true true)

/-! ### Script-check work unit (`parallel.h`) -/

/-- Script-interpreter result codes (external collaborator); only the members
used by this core are distinguished. -/
inductive ScriptError where
  | SCRIPT_ERR_OK
  | SCRIPT_ERR_UNKNOWN_ERROR
  | SCRIPT_ERR_EVAL_FALSE
deriving DecidableEq, Repr

/-- `COutPoint`: reference to a transaction output. -/
structure COutPoint where
  hash : Nat
  n : Nat
deriving DecidableEq, Repr

/-- `CTxIn`: a transaction input (only the outpoint matters here). -/
structure CTxIn where
  prevout : COutPoint
deriving DecidableEq, Repr

/-- `CTxOut`: a transaction output carrying a locking script (script bytes). -/
structure CTxOut where
  nValue : Int
  scriptPubKey : List Nat
deriving DecidableEq, Repr

/-- `CTransaction`: only the input vector is consulted by this core. -/
structure CTransaction where
  vin : List CTxIn
deriving DecidableEq, Repr

/-- `CCoins`: the unspent outputs of a previous transaction. -/
structure CCoins where
  vout : List CTxOut
deriving DecidableEq, Repr

/-- `CScriptCheck`: closure for one script verification. `ptxTo` is the
borrowed pointer to the spending transaction (`none` models the null pointer
of the default constructor). -/
structure CScriptCheck where
  scriptPubKey : List Nat
  ptxTo : Option CTransaction
  nIn : Nat
  nFlags : Nat
  cacheStore : Bool
  error : ScriptError
deriving DecidableEq, Repr

/-- The default `CScriptCheck` constructor: null transaction pointer, zeroed
fields, error `SCRIPT_ERR_UNKNOWN_ERROR`. -/
def CScriptCheck.default : CScriptCheck :=
  { scriptPubKey := []
    ptxTo := none
    nIn := 0
    nFlags := 0
    cacheStore := false
    error := ScriptError.SCRIPT_ERR_UNKNOWN_ERROR }

/-- The parameterized `CScriptCheck` constructor. The C++ source indexes
`txToIn.vin[nInIn]` and `txFromIn.vout[...]` with no bounds check; the
fallible lookups are made explicit with `Option`, so `none` marks exactly the
inputs on which the source constructor's behaviour is undefined. -/
def CScriptCheck.construct (txFromIn : CCoins) (txToIn : CTransaction)
    (nInIn nFlagsIn : Nat) (cacheIn : Bool) : Option CScriptCheck :=
  match txToIn.vin[nInIn]? with
  | none => none
  | some txin =>
    match txFromIn.vout[txin.prevout.n]? with
    | none => none
    | some out =>
      some { scriptPubKey := out.scriptPubKey
             ptxTo := some txToIn
             nIn := nInIn
             nFlags := nFlagsIn
             cacheStore := cacheIn
             error := ScriptError.SCRIPT_ERR_UNKNOWN_ERROR }

/-- Exchange the `scriptPubKey` fields of a pair of checks
(`scriptPubKey.swap(check.scriptPubKey)`). -/
def swapScriptPubKey (p : CScriptCheck × CScriptCheck) : CScriptCheck × CScriptCheck :=
  ({ p.1 with scriptPubKey := p.2.scriptPubKey },
   { p.2 with scriptPubKey := p.1.scriptPubKey })

/-- Exchange the `ptxTo` fields (`std::swap(ptxTo, check.ptxTo)`). -/
def swapPtxTo (p : CScriptCheck × CScriptCheck) : CScriptCheck × CScriptCheck :=
  ({ p.1 with ptxTo := p.2.ptxTo }, { p.2 with ptxTo := p.1.ptxTo })

/-- Exchange the `nIn` fields (`std::swap(nIn, check.nIn)`). -/
def swapNIn (p : CScriptCheck × CScriptCheck) : CScriptCheck × CScriptCheck :=
  ({ p.1 with nIn := p.2.nIn }, { p.2 with nIn := p.1.nIn })

/-- Exchange the `nFlags` fields (`std::swap(nFlags, check.nFlags)`). -/
def swapNFlags (p : CScriptCheck × CScriptCheck) : CScriptCheck × CScriptCheck :=
  ({ p.1 with nFlags := p.2.nFlags }, { p.2 with nFlags := p.1.nFlags })

/-- Exchange the `cacheStore` fields (`std::swap(cacheStore, check.cacheStore)`). -/
def swapCacheStore (p : CScriptCheck × CScriptCheck) : CScriptCheck × CScriptCheck :=
  ({ p.1 with cacheStore := p.2.cacheStore }, { p.2 with cacheStore := p.1.cacheStore })

/-- Exchange the `error` fields (`std::swap(error, check.error)`). -/
def swapError (p : CScriptCheck × CScriptCheck) : CScriptCheck × CScriptCheck :=
  ({ p.1 with error := p.2.error }, { p.2 with error := p.1.error })

/-- `CScriptCheck::swap`: the six field-by-field exchanges performed in
source order; returns the pair of resulting instances. -/
def CScriptCheck.swap (a b : CScriptCheck) : CScriptCheck × CScriptCheck :=
  swapError (swapCacheStore (swapNFlags (swapNIn (swapPtxTo (swapScriptPubKey (a, b))))))

/-! ### Script-check queue registry (`CAllScriptCheckQueues`) -/

namespace CAllScriptCheckQueues

/-- `CAllScriptCheckQueues::Add`: append a queue pointer (modelled by an id)
to the registry vector. -/
def Add (vScriptCheckQueues : List Nat) (pqueueIn : Nat) : List Nat :=
  vScriptCheckQueues ++ [pqueueIn]

/-- `CAllScriptCheckQueues::Size`: the vector size returned through a
`uint8_t`, i.e. truncated modulo 256. -/
def Size (vScriptCheckQueues : List Nat) : Nat :=
  vScriptCheckQueues.length % 256

/-- Run a sequence of `Add` calls starting from the empty registry. -/
def runAdds (qs : List Nat) : List Nat :=
  qs.foldl Add []

end CAllScriptCheckQueues

/-! ### Parallel-validation session registry (`CParallelValidation`)

`parallel.h` only declares the member functions; their bodies are not among
the sources, so the two operations needed here are modelled from the spec. -/

/-- Identifier of a validation thread (`boost::thread::id`). -/
abbrev ThreadId := Nat

/-- `CParallelValidation::CHandleBlockMsgThreads`: the per-session record
(thread and queue references reduced to ids). -/
structure CHandleBlockMsgThreads where
  pScriptQueue : Nat
  hash : Nat
  hashPrevBlock : Nat
  nSequenceId : Nat
  nStartTime : Int
  nBlockSize : Nat
  fQuit : Bool
deriving DecidableEq, Repr

/-- The session registry `mapBlockValidationThreads`, keyed by thread id. -/
abbrev PVMap := List (ThreadId × CHandleBlockMsgThreads)

/-- Lookup of the session belonging to a thread id in the registry
(the `std::map::find` of `mapBlockValidationThreads`). -/
def pvLookup (m : PVMap) (this_id : ThreadId) : Option CHandleBlockMsgThreads :=
  match m with
  | [] => none
  | (k, v) :: rest => if this_id = k then some v else pvLookup rest this_id

/-- Modelled from the spec: the body of
`CParallelValidation::StopAllValidationThreads(const boost::thread::id)` is
not among the sources (`parallel.h` declares it only). Per the spec it sets
`fQuit = true` for every active session EXCEPT the one belonging to the
given thread id. -/
def StopAllValidationThreads (m : PVMap) (this_id : ThreadId) : PVMap :=
  m.map (fun e => (e.1, if e.1 = this_id then e.2 else { e.2 with fQuit := true }))

/-- Modelled from the spec: the no-argument overload
`CParallelValidation::StopAllValidationThreads()` sets `fQuit = true` for
every active session, none excluded (shutdown/reorg path). -/
def StopAllValidationThreadsShutdown (m : PVMap) : PVMap :=
  m.map (fun e => (e.1, { e.2 with fQuit := true }))

/-- Modelled from the spec: `CParallelValidation::QuitReceived` reads the
`fQuit` flag of the session belonging to the given thread id under the lock;
a thread with no registered session reads `false`. -/
def QuitReceived (m : PVMap) (this_id : ThreadId) : Bool :=
  match pvLookup m this_id with
  | some entry => entry.fQuit
  | none => false

end BitcoinPV

namespace BitcoinPV

/-! ### Basic lemmas about the vector helpers -/

theorem removeNode_fst (l : List CNodePtr) (p : CNodePtr) :
    (RemoveNode l p).1 = l.erase p := by
  unfold RemoveNode
  split
  · rfl
  · rename_i h
    exact (List.erase_of_not_mem h).symm

theorem enable_vSendExpeditedBlocks (s : CConnMgr) (p : CNodePtr) (fB fT fF : Bool) :
    (s.EnableExpeditedSends p fB fT fF).vSendExpeditedBlocks =
      if fB = true ∧ p ∉ s.vSendExpeditedBlocks then
        if fF = true ∨ s.vSendExpeditedBlocks.length < s.nExpeditedBlocksMax then
          s.vSendExpeditedBlocks ++ [p]
        else s.vSendExpeditedBlocks
      else s.vSendExpeditedBlocks := by
  unfold CConnMgr.EnableExpeditedSends AddNode
  dsimp only
  split_ifs <;> simp_all

theorem enable_vSendExpeditedTxs (s : CConnMgr) (p : CNodePtr) (fB fT fF : Bool) :
    (s.EnableExpeditedSends p fB fT fF).vSendExpeditedTxs =
      if fT = true ∧ p ∉ s.vSendExpeditedTxs then
        if fF = true ∨ s.vSendExpeditedTxs.length < s.nExpeditedTxsMax then
          s.vSendExpeditedTxs ++ [p]
        else s.vSendExpeditedTxs
      else s.vSendExpeditedTxs := by
  unfold CConnMgr.EnableExpeditedSends AddNode
  dsimp only
  split_ifs <;> simp_all

theorem enable_rest (s : CConnMgr) (p : CNodePtr) (fB fT fF : Bool) :
    (s.EnableExpeditedSends p fB fT fF).vExpeditedUpstream = s.vExpeditedUpstream ∧
    (s.EnableExpeditedSends p fB fT fF).nExpeditedBlocksMax = s.nExpeditedBlocksMax ∧
    (s.EnableExpeditedSends p fB fT fF).nExpeditedTxsMax = s.nExpeditedTxsMax := by
  unfold CConnMgr.EnableExpeditedSends AddNode
  dsimp only
  split_ifs <;> exact ⟨rfl, rfl, rfl⟩

theorem disable_fields (s : CConnMgr) (p : CNodePtr) (fB fT : Bool) :
    (s.DisableExpeditedSends p fB fT).vSendExpeditedBlocks =
      (if fB = true then s.vSendExpeditedBlocks.erase p else s.vSendExpeditedBlocks) ∧
    (s.DisableExpeditedSends p fB fT).vSendExpeditedTxs =
      (if fT = true then s.vSendExpeditedTxs.erase p else s.vSendExpeditedTxs) ∧
    (s.DisableExpeditedSends p fB fT).vExpeditedUpstream = s.vExpeditedUpstream ∧
    (s.DisableExpeditedSends p fB fT).nExpeditedBlocksMax = s.nExpeditedBlocksMax ∧
    (s.DisableExpeditedSends p fB fT).nExpeditedTxsMax = s.nExpeditedTxsMax := by
  unfold CConnMgr.DisableExpeditedSends
  dsimp only
  rw [removeNode_fst, removeNode_fst]
  split <;> split <;> simp_all

theorem removedNode_fields (s : CConnMgr) (p : CNodePtr) :
    (s.RemovedNode p).vSendExpeditedBlocks = s.vSendExpeditedBlocks.erase p ∧
    (s.RemovedNode p).vSendExpeditedTxs = s.vSendExpeditedTxs.erase p ∧
    (s.RemovedNode p).vExpeditedUpstream = s.vExpeditedUpstream.erase p ∧
    (s.RemovedNode p).nExpeditedBlocksMax = s.nExpeditedBlocksMax ∧
    (s.RemovedNode p).nExpeditedTxsMax = s.nExpeditedTxsMax := by
  unfold CConnMgr.RemovedNode
  rw [removeNode_fst, removeNode_fst, removeNode_fst]
  exact ⟨rfl, rfl, rfl, rfl, rfl⟩

theorem push_fields (s : CConnMgr) (e c : Bool) (p : CNodePtr) (flags : Nat)
    (he : e = true) (hc : c = true) :
    (s.PushExpeditedRequest e c p flags).ret = true ∧
    (s.PushExpeditedRequest e c p flags).messageSent = true ∧
    (s.PushExpeditedRequest e c p flags).state.vSendExpeditedBlocks = s.vSendExpeditedBlocks ∧
    (s.PushExpeditedRequest e c p flags).state.vSendExpeditedTxs = s.vSendExpeditedTxs ∧
    (s.PushExpeditedRequest e c p flags).state.nExpeditedBlocksMax = s.nExpeditedBlocksMax ∧
    (s.PushExpeditedRequest e c p flags).state.nExpeditedTxsMax = s.nExpeditedTxsMax ∧
    (s.PushExpeditedRequest e c p flags).state.vExpeditedUpstream =
      (if flags &&& EXPEDITED_BLOCKS ≠ 0 then
        if flags &&& EXPEDITED_STOP ≠ 0 then s.vExpeditedUpstream.erase p
        else if p ∈ s.vExpeditedUpstream then s.vExpeditedUpstream
        else s.vExpeditedUpstream ++ [p]
      else s.vExpeditedUpstream) := by
  subst he hc
  unfold CConnMgr.PushExpeditedRequest AddNode
  dsimp only
  rw [removeNode_fst]
  split_ifs <;> simp_all

end BitcoinPV

namespace BitcoinPV

/-! ### Structure extensionality and failure-path helpers -/

theorem connmgr_ext {x y : CConnMgr}
    (h1 : x.vSendExpeditedBlocks = y.vSendExpeditedBlocks)
    (h2 : x.vSendExpeditedTxs = y.vSendExpeditedTxs)
    (h3 : x.vExpeditedUpstream = y.vExpeditedUpstream)
    (h4 : x.nExpeditedBlocksMax = y.nExpeditedBlocksMax)
    (h5 : x.nExpeditedTxsMax = y.nExpeditedTxsMax) : x = y := by
  cases x; cases y
  cases h1; cases h2; cases h3; cases h4; cases h5
  rfl

theorem push_fail (s : CConnMgr) (e c : Bool) (p : CNodePtr) (flags : Nat)
    (h : e = false ∨ c = false) :
    s.PushExpeditedRequest e c p flags =
      { ret := false, state := s, messageSent := false } := by
  unfold CConnMgr.PushExpeditedRequest
  rcases h with h | h <;> subst h
  · simp
  · cases e <;> simp

theorem nodup_append_singleton {l : List CNodePtr} {p : CNodePtr}
    (h : l.Nodup) (hp : p ∉ l) : (l ++ [p]).Nodup := by
  simp [List.nodup_append]
  exact ⟨h, hp⟩

/-! ### Preservation of the at-most-once invariant -/

theorem apply_nodupInv (s : CConnMgr) (op : ConnOp) (h : NodupInv s) :
    NodupInv (op.apply s) := by
  obtain ⟨h1, h2, h3⟩ := h
  cases op with
  | enable p b t f =>
    refine ⟨?_, ?_, ?_⟩
    · rw [show (ConnOp.apply s (ConnOp.enable p b t f)) = s.EnableExpeditedSends p b t f from rfl,
        enable_vSendExpeditedBlocks]
      split_ifs with hc hd
      · exact nodup_append_singleton h1 hc.2
      · exact h1
      · exact h1
    · rw [show (ConnOp.apply s (ConnOp.enable p b t f)) = s.EnableExpeditedSends p b t f from rfl,
        enable_vSendExpeditedTxs]
      split_ifs with hc hd
      · exact nodup_append_singleton h2 hc.2
      · exact h2
      · exact h2
    · rw [show (ConnOp.apply s (ConnOp.enable p b t f)) = s.EnableExpeditedSends p b t f from rfl,
        (enable_rest s p b t f).1]
      exact h3
  | disable p b t =>
    obtain ⟨hb, ht, hu, _, _⟩ := disable_fields s p b t
    refine ⟨?_, ?_, ?_⟩
    · rw [show (ConnOp.apply s (ConnOp.disable p b t)) = s.DisableExpeditedSends p b t from rfl, hb]
      split_ifs
      · exact h1.erase p
      · exact h1
    · rw [show (ConnOp.apply s (ConnOp.disable p b t)) = s.DisableExpeditedSends p b t from rfl, ht]
      split_ifs
      · exact h2.erase p
      · exact h2
    · rw [show (ConnOp.apply s (ConnOp.disable p b t)) = s.DisableExpeditedSends p b t from rfl, hu]
      exact h3
  | removed p =>
    obtain ⟨hb, ht, hu, _, _⟩ := removedNode_fields s p
    refine ⟨?_, ?_, ?_⟩
    · rw [show (ConnOp.apply s (ConnOp.removed p)) = s.RemovedNode p from rfl, hb]
      exact h1.erase p
    · rw [show (ConnOp.apply s (ConnOp.removed p)) = s.RemovedNode p from rfl, ht]
      exact h2.erase p
    · rw [show (ConnOp.apply s (ConnOp.removed p)) = s.RemovedNode p from rfl, hu]
      exact h3.erase p
  | push e c p fl =>
    show NodupInv (s.PushExpeditedRequest e c p fl).state
    cases e with
    | false =>
      rw [push_fail s false c p fl (Or.inl rfl)]
      exact ⟨h1, h2, h3⟩
    | true =>
      cases c with
      | false =>
        rw [push_fail s true false p fl (Or.inr rfl)]
        exact ⟨h1, h2, h3⟩
      | true =>
        obtain ⟨_, _, hb, ht, _, _, hu⟩ := push_fields s true true p fl rfl rfl
        refine ⟨hb ▸ h1, ht ▸ h2, ?_⟩
        rw [hu]
        split_ifs with hB hS hmem
        · exact h3.erase p
        · exact h3
        · exact nodup_append_singleton h3 hmem
        · exact h3

theorem runOps_nodupInv (ops : List ConnOp) (s : CConnMgr) (h : NodupInv s) :
    NodupInv (runOps s ops) := by
  induction ops generalizing s with
  | nil => exact h
  | cons op ops ih => exact ih (op.apply s) (apply_nodupInv s op h)

theorem reachable_nodupInv (s : CConnMgr) (h : s.Reachable) : NodupInv s := by
  obtain ⟨ops, rfl⟩ := h
  exact runOps_nodupInv ops CConnMgr.init ⟨List.nodup_nil, List.nodup_nil, List.nodup_nil⟩

end BitcoinPV

namespace BitcoinPV

/-! ### Claim theorems -/

/-- C6: starting from the freshly constructed (empty) registry, no sequence
of registry operations (`EnableExpeditedSends`, `DisableExpeditedSends`,
`RemovedNode`, `PushExpeditedRequest`) ever produces a duplicate entry
within any of the three membership vectors: each peer appears at most once
per vector. -/
theorem connmgr_ops_never_duplicate (ops : List ConnOp) :
    (runOps CConnMgr.init ops).vSendExpeditedBlocks.Nodup ∧
    (runOps CConnMgr.init ops).vSendExpeditedTxs.Nodup ∧
    (runOps CConnMgr.init ops).vExpeditedUpstream.Nodup :=
  runOps_nodupInv ops CConnMgr.init ⟨List.nodup_nil, List.nodup_nil, List.nodup_nil⟩

/-- C3: when a fanout vector already holds at least its configured maximum,
`EnableExpeditedSends` with `fForceIfFull = false` leaves that vector
unchanged (the peer is not added, the vector never grows past the cap);
with `fForceIfFull = true` the requested peer is in the vector afterwards
regardless of its current size. -/
theorem enableExpeditedSends_capacity (s : CConnMgr) (p : CNodePtr) (fBlocks fTxs : Bool) :
    (s.nExpeditedBlocksMax ≤ s.vSendExpeditedBlocks.length →
      (s.EnableExpeditedSends p fBlocks fTxs false).vSendExpeditedBlocks =
        s.vSendExpeditedBlocks) ∧
    (s.nExpeditedTxsMax ≤ s.vSendExpeditedTxs.length →
      (s.EnableExpeditedSends p fBlocks fTxs false).vSendExpeditedTxs =
        s.vSendExpeditedTxs) ∧
    (fBlocks = true → p ∈ (s.EnableExpeditedSends p fBlocks fTxs true).vSendExpeditedBlocks) ∧
    (fTxs = true → p ∈ (s.EnableExpeditedSends p fBlocks fTxs true).vSendExpeditedTxs) := by
  refine ⟨?_, ?_, ?_, ?_⟩
  · intro h
    rw [enable_vSendExpeditedBlocks]
    split_ifs with h1 h2
    · rcases h2 with h2 | h2
      · exact absurd h2 (by simp)
      · exact absurd h2 (by omega)
    · rfl
    · rfl
  · intro h
    rw [enable_vSendExpeditedTxs]
    split_ifs with h1 h2
    · rcases h2 with h2 | h2
      · exact absurd h2 (by simp)
      · exact absurd h2 (by omega)
    · rfl
    · rfl
  · intro hB
    rw [enable_vSendExpeditedBlocks]
    split_ifs with h1 h2
    · simp
    · exact absurd (Or.inl rfl) h2
    · simpa [hB] using h1
  · intro hT
    rw [enable_vSendExpeditedTxs]
    split_ifs with h1 h2
    · simp
    · exact absurd (Or.inl rfl) h2
    · simpa [hT] using h1

/-- C3 witness: a registry whose blocks vector `[1]` and txs vector `[2]`
are at their (configured) maximum of 1; a non-forced enable of peer 9
changes nothing, while a forced enable inserts peer 9 into both vectors. -/
theorem enableExpeditedSends_capacity_witness :
    ((⟨[1], [2], [], 1, 1⟩ : CConnMgr).EnableExpeditedSends 9 true true false).vSendExpeditedBlocks
        = [1] ∧
    ((⟨[1], [2], [], 1, 1⟩ : CConnMgr).EnableExpeditedSends 9 true true false).vSendExpeditedTxs
        = [2] ∧
    9 ∈ ((⟨[1], [2], [], 1, 1⟩ : CConnMgr).EnableExpeditedSends 9 true true true).vSendExpeditedBlocks ∧
    9 ∈ ((⟨[1], [2], [], 1, 1⟩ : CConnMgr).EnableExpeditedSends 9 true true true).vSendExpeditedTxs := by
  obtain ⟨a, b, c, d⟩ := enableExpeditedSends_capacity ⟨[1], [2], [], 1, 1⟩ 9 true true
  exact ⟨a (by decide), b (by decide), c rfl, d rfl⟩

/-- C4: if thin-block support is globally disabled or the peer has not
advertised thin-block capability, `PushExpeditedRequest` returns false,
leaves the registry (all three vectors) unchanged and pushes no message. -/
theorem pushExpeditedRequest_capability_failure (s : CConnMgr) (e c : Bool)
    (p : CNodePtr) (flags : Nat) (h : e = false ∨ c = false) :
    s.PushExpeditedRequest e c p flags =
      { ret := false, state := s, messageSent := false } :=
  push_fail s e c p flags h

/-- C4 witness: with thin blocks globally disabled, a request to peer 3 with
the `EXPEDITED_BLOCKS` flag fails and changes nothing. -/
theorem pushExpeditedRequest_capability_failure_witness :
    CConnMgr.init.PushExpeditedRequest false true 3 EXPEDITED_BLOCKS =
      { ret := false, state := CConnMgr.init, messageSent := false } :=
  pushExpeditedRequest_capability_failure CConnMgr.init false true 3 EXPEDITED_BLOCKS (Or.inl rfl)

/-- C5: `RemovedNode` on a peer absent from a vector leaves that vector
unchanged, and on any reachable registry state (where no vector holds a
peer twice) a second `RemovedNode` of the same peer is a no-op, so
`RemovedNode` is idempotent. -/
theorem removedNode_idempotent (s : CConnMgr) (p : CNodePtr) :
    (p ∉ s.vSendExpeditedBlocks →
      (s.RemovedNode p).vSendExpeditedBlocks = s.vSendExpeditedBlocks) ∧
    (p ∉ s.vSendExpeditedTxs →
      (s.RemovedNode p).vSendExpeditedTxs = s.vSendExpeditedTxs) ∧
    (p ∉ s.vExpeditedUpstream →
      (s.RemovedNode p).vExpeditedUpstream = s.vExpeditedUpstream) ∧
    (s.Reachable → (s.RemovedNode p).RemovedNode p = s.RemovedNode p) := by
  obtain ⟨hb, ht, hu, hmb, hmt⟩ := removedNode_fields s p
  refine ⟨?_, ?_, ?_, ?_⟩
  · intro h
    rw [hb, List.erase_of_not_mem h]
  · intro h
    rw [ht, List.erase_of_not_mem h]
  · intro h
    rw [hu, List.erase_of_not_mem h]
  · intro hr
    obtain ⟨n1, n2, n3⟩ := reachable_nodupInv s hr
    obtain ⟨hb2, ht2, hu2, hmb2, hmt2⟩ := removedNode_fields (s.RemovedNode p) p
    apply connmgr_ext
    · rw [hb2, hb, List.erase_of_not_mem (fun hmem => (n1.mem_erase_iff.1 hmem).1 rfl)]
    · rw [ht2, ht, List.erase_of_not_mem (fun hmem => (n2.mem_erase_iff.1 hmem).1 rfl)]
    · rw [hu2, hu, List.erase_of_not_mem (fun hmem => (n3.mem_erase_iff.1 hmem).1 rfl)]
    · rw [hmb2]
    · rw [hmt2]

/-- C5 witness: removing peer 5 from the fresh (empty, hence reachable)
registry leaves the blocks vector unchanged, and removing it twice equals
removing it once. -/
theorem removedNode_idempotent_witness :
    (CConnMgr.init.RemovedNode 5).vSendExpeditedBlocks = CConnMgr.init.vSendExpeditedBlocks ∧
    (CConnMgr.init.RemovedNode 5).RemovedNode 5 = CConnMgr.init.RemovedNode 5 := by
  obtain ⟨a, _, _, d⟩ := removedNode_idempotent CConnMgr.init 5
  exact ⟨a (by decide), d ⟨[], rfl⟩⟩

/-- C8: `CScriptCheck::swap` exchanges all six fields between the two
instances, and applying it twice restores both instances. -/
theorem cScriptCheck_swap_exchanges_all_fields (a b : CScriptCheck) :
    CScriptCheck.swap a b = (b, a) ∧
    CScriptCheck.swap (CScriptCheck.swap a b).1 (CScriptCheck.swap a b).2 = (a, b) := by
  cases a
  cases b
  exact ⟨rfl, rfl⟩

/-- Auxiliary: folding `Add` over a list of queues appends them all. -/
theorem foldl_Add_length (qs l : List Nat) :
    (qs.foldl CAllScriptCheckQueues.Add l).length = l.length + qs.length := by
  induction qs generalizing l with
  | nil => simp
  | cons q qs ih =>
    simp only [List.foldl_cons]
    rw [ih]
    simp [CAllScriptCheckQueues.Add]
    omega

/-- C9: `CAllScriptCheckQueues::Size` returns the number of registered
executors truncated to `uint8_t` (the count of `Add` calls modulo 256), and
for any sequence of more than 255 `Add` calls the returned value differs
from the true number of registered executors. -/
theorem allScriptCheckQueues_size_truncated (qs : List Nat) :
    CAllScriptCheckQueues.Size (CAllScriptCheckQueues.runAdds qs) = qs.length % 256 ∧
    (255 < qs.length →
      CAllScriptCheckQueues.Size (CAllScriptCheckQueues.runAdds qs) ≠ qs.length) := by
  have h : (CAllScriptCheckQueues.runAdds qs).length = qs.length := by
    simpa using foldl_Add_length qs []
  constructor
  · simp [CAllScriptCheckQueues.Size, h]
  · intro hgt
    simp only [CAllScriptCheckQueues.Size, h]
    omega

/-- C9 witness: after 256 `Add` calls the reported size is 0, not 256. -/
theorem allScriptCheckQueues_size_truncated_witness :
    255 < (List.range 256).length ∧
    CAllScriptCheckQueues.Size (CAllScriptCheckQueues.runAdds (List.range 256)) ≠
      (List.range 256).length :=
  ⟨by simp, (allScriptCheckQueues_size_truncated (List.range 256)).2 (by simp)⟩

end BitcoinPV

namespace BitcoinPV

/-- C1 counterexample: thin blocks enabled, peer 7 thin-block capable and
currently in the upstream set (put there by a prior request with the
`EXPEDITED_BLOCKS` flag). A request whose flags value is `EXPEDITED_STOP`
alone (STOP bit set, BLOCKS bit clear) does NOT remove the peer from the
upstream set — `PushExpeditedRequest` only touches the upstream set when
the `EXPEDITED_BLOCKS` bit is set — contradicting the claim that for every
flags value the STOP bit removes the peer. -/
theorem pushExpeditedRequest_stop_only_counterexample :
    (CConnMgr.init.PushExpeditedRequest true true 7 EXPEDITED_BLOCKS).state.IsExpeditedUpstream 7
      = true ∧
    (((CConnMgr.init.PushExpeditedRequest true true 7 EXPEDITED_BLOCKS).state.PushExpeditedRequest
        true true 7 EXPEDITED_STOP).state.IsExpeditedUpstream 7) = true := by
  decide

/-- C1 (amended): under the preconditions (thin blocks globally enabled and
the peer capable), and when the flags value has the `EXPEDITED_BLOCKS` bit
set: the STOP bit removes the peer from the upstream set, and otherwise the
peer is added if not already present (no capacity bound is consulted; on a
redundant add the registry is unchanged). When the `EXPEDITED_BLOCKS` bit
is clear the registry is unchanged. In every case the expedited-request
message is sent to the peer and the call returns true. -/
theorem pushExpeditedRequest_request_semantics (s : CConnMgr) (e c : Bool)
    (p : CNodePtr) (flags : Nat)
    (he : e = true) (hc : c = true) (hnd : s.vExpeditedUpstream.Nodup) :
    (s.PushExpeditedRequest e c p flags).ret = true ∧
    (s.PushExpeditedRequest e c p flags).messageSent = true ∧
    (flags &&& EXPEDITED_BLOCKS ≠ 0 → flags &&& EXPEDITED_STOP ≠ 0 →
      p ∉ (s.PushExpeditedRequest e c p flags).state.vExpeditedUpstream) ∧
    (flags &&& EXPEDITED_BLOCKS ≠ 0 → flags &&& EXPEDITED_STOP = 0 →
      p ∈ (s.PushExpeditedRequest e c p flags).state.vExpeditedUpstream ∧
      (p ∈ s.vExpeditedUpstream → (s.PushExpeditedRequest e c p flags).state = s) ∧
      (p ∉ s.vExpeditedUpstream →
        (s.PushExpeditedRequest e c p flags).state.vExpeditedUpstream =
          s.vExpeditedUpstream ++ [p])) ∧
    (flags &&& EXPEDITED_BLOCKS = 0 → (s.PushExpeditedRequest e c p flags).state = s) := by
  obtain ⟨h1, h2, hblk, htx, hmb, hmt, hu⟩ := push_fields s e c p flags he hc
  refine ⟨h1, h2, ?_, ?_, ?_⟩
  · intro hB hS
    rw [hu, if_pos hB, if_pos hS]
    intro hmem
    exact (hnd.mem_erase_iff.1 hmem).1 rfl
  · intro hB hS
    have hu2 : (s.PushExpeditedRequest e c p flags).state.vExpeditedUpstream =
        if p ∈ s.vExpeditedUpstream then s.vExpeditedUpstream
        else s.vExpeditedUpstream ++ [p] := by
      rw [hu, if_pos hB, if_neg (by simp [hS])]
    refine ⟨?_, ?_, ?_⟩
    · rw [hu2]
      split_ifs with hm
      · exact hm
      · simp
    · intro hm
      exact connmgr_ext hblk htx (by rw [hu2, if_pos hm]) hmb hmt
    · intro hm
      rw [hu2, if_neg hm]
  · intro hB
    exact connmgr_ext hblk htx (by rw [hu, if_neg (by simp [hB])]) hmb hmt

/-- C1 amended-theorem witness: peer 5 is in the upstream set of a registry
with no duplicates; a request with flags `EXPEDITED_BLOCKS ||| EXPEDITED_STOP`
(= 3) returns true, sends the message and removes peer 5 from the upstream
set. -/
theorem pushExpeditedRequest_request_semantics_witness :
    ((⟨[], [], [5], 32, 32⟩ : CConnMgr).PushExpeditedRequest true true 5 3).ret = true ∧
    ((⟨[], [], [5], 32, 32⟩ : CConnMgr).PushExpeditedRequest true true 5 3).messageSent = true ∧
    5 ∉ ((⟨[], [], [5], 32, 32⟩ : CConnMgr).PushExpeditedRequest
          true true 5 3).state.vExpeditedUpstream := by
  obtain ⟨h1, h2, h3, _, _⟩ :=
    pushExpeditedRequest_request_semantics ⟨[], [], [5], 32, 32⟩ true true 5 3 rfl rfl (by decide)
  exact ⟨h1, h2, h3 (by decide) (by decide)⟩

end BitcoinPV

namespace BitcoinPV

/-! ### Counting lemmas for enable/disable sequences -/

theorem runOps_append (s : CConnMgr) (l1 l2 : List ConnOp) :
    runOps s (l1 ++ l2) = runOps (runOps s l1) l2 :=
  List.foldl_append ConnOp.apply s l1 l2

theorem enable_grows (ps : List CNodePtr) (s : CConnMgr)
    (hB : (s.vSendExpeditedBlocks ++ ps).Nodup)
    (hT : (s.vSendExpeditedTxs ++ ps).Nodup)
    (hlB : s.vSendExpeditedBlocks.length + ps.length ≤ s.nExpeditedBlocksMax)
    (hlT : s.vSendExpeditedTxs.length + ps.length ≤ s.nExpeditedTxsMax) :
    (runOps s (enableOps ps)).vSendExpeditedBlocks = s.vSendExpeditedBlocks ++ ps ∧
    (runOps s (enableOps ps)).vSendExpeditedTxs = s.vSendExpeditedTxs ++ ps ∧
    (runOps s (enableOps ps)).vExpeditedUpstream = s.vExpeditedUpstream ∧
    (runOps s (enableOps ps)).nExpeditedBlocksMax = s.nExpeditedBlocksMax ∧
    (runOps s (enableOps ps)).nExpeditedTxsMax = s.nExpeditedTxsMax := by
  induction ps generalizing s with
  | nil => simp [enableOps, runOps]
  | cons p ps ih =>
    have hpb : p ∉ s.vSendExpeditedBlocks :=
      fun hmem => (List.nodup_append.mp hB).2.2 hmem (by simp)
    have hpt : p ∉ s.vSendExpeditedTxs :=
      fun hmem => (List.nodup_append.mp hT).2.2 hmem (by simp)
    have step : runOps s (enableOps (p :: ps)) =
        runOps (s.EnableExpeditedSends p true true false) (enableOps ps) := rfl
    have e1 : (s.EnableExpeditedSends p true true false).vSendExpeditedBlocks =
        s.vSendExpeditedBlocks ++ [p] := by
      rw [enable_vSendExpeditedBlocks, if_pos ⟨rfl, hpb⟩,
        if_pos (Or.inr (by simp at hlB; omega))]
    have e2 : (s.EnableExpeditedSends p true true false).vSendExpeditedTxs =
        s.vSendExpeditedTxs ++ [p] := by
      rw [enable_vSendExpeditedTxs, if_pos ⟨rfl, hpt⟩,
        if_pos (Or.inr (by simp at hlT; omega))]
    obtain ⟨e3, e4, e5⟩ := enable_rest s p true true false
    rw [List.append_cons] at hB hT
    obtain ⟨r1, r2, r3, r4, r5⟩ := ih (s.EnableExpeditedSends p true true false)
      (by rw [e1]; exact hB) (by rw [e2]; exact hT)
      (by rw [e1, e4]; simp at hlB ⊢; omega)
      (by rw [e2, e5]; simp at hlT ⊢; omega)
    rw [step]
    refine ⟨?_, ?_, ?_, ?_, ?_⟩
    · rw [r1, e1]
      simp
    · rw [r2, e2]
      simp
    · rw [r3, e3]
    · rw [r4, e4]
    · rw [r5, e5]

theorem disable_shrinks (qs : List CNodePtr) (s : CConnMgr) :
    (runOps s (disableOps qs)).vSendExpeditedBlocks = s.vSendExpeditedBlocks.diff qs ∧
    (runOps s (disableOps qs)).vSendExpeditedTxs = s.vSendExpeditedTxs.diff qs ∧
    (runOps s (disableOps qs)).vExpeditedUpstream = s.vExpeditedUpstream ∧
    (runOps s (disableOps qs)).nExpeditedBlocksMax = s.nExpeditedBlocksMax ∧
    (runOps s (disableOps qs)).nExpeditedTxsMax = s.nExpeditedTxsMax := by
  induction qs generalizing s with
  | nil => simp [disableOps, runOps]
  | cons q qs ih =>
    have step : runOps s (disableOps (q :: qs)) =
        runOps (s.DisableExpeditedSends q true true) (disableOps qs) := rfl
    obtain ⟨db, dt, du, dmb, dmt⟩ := disable_fields s q true true
    obtain ⟨r1, r2, r3, r4, r5⟩ := ih (s.DisableExpeditedSends q true true)
    rw [step]
    refine ⟨?_, ?_, ?_, ?_, ?_⟩
    · rw [r1, db, if_pos rfl, List.diff_cons]
    · rw [r2, dt, if_pos rfl, List.diff_cons]
    · rw [r3, du]
    · rw [r4, dmb]
    · rw [r5, dmt]

theorem length_diff_of_nodup (l qs : List CNodePtr)
    (hl : l.Nodup) (hq : qs.Nodup) (hsub : ∀ q ∈ qs, q ∈ l) :
    (l.diff qs).length = l.length - qs.length := by
  induction qs generalizing l with
  | nil => simp
  | cons q qs ih =>
    have hqmem : q ∈ l := hsub q (by simp)
    obtain ⟨hq1, hq2⟩ := List.nodup_cons.mp hq
    rw [List.diff_cons]
    have hsub2 : ∀ x ∈ qs, x ∈ l.erase q := by
      intro x hx
      have hxq : x ≠ q := fun hxx => hq1 (hxx ▸ hx)
      exact (List.mem_erase_of_ne hxq).mpr (hsub x (by simp [hx]))
    rw [ih (l.erase q) (hl.erase q) hq2 hsub2, List.length_erase_of_mem hqmem]
    have : 0 < l.length := List.length_pos.mpr (List.ne_nil_of_mem hqmem)
    simp only [List.length_cons]
    omega

end BitcoinPV

namespace BitcoinPV

set_option maxRecDepth 40000 in
/-- C7 counterexample: 33 non-forced enables of distinct peers (and no
disables) starting from the fresh registry. The claim predicts counts of
N − M = 33 for the blocks and txs categories, but the capacity check caps
both vectors at the configured maximum of 32, so `ExpeditedNodeCounts`
reports (32, 32, 0), not (33, 33, 0). -/
theorem expeditedNodeCounts_cap_counterexample :
    (runOps CConnMgr.init (enableOps (List.range 33))).ExpeditedNodeCounts = (32, 32, 0) ∧
    (runOps CConnMgr.init (enableOps (List.range 33))).ExpeditedNodeCounts ≠ (33, 33, 0) := by
  decide

/-- C7 (amended): `ExpeditedNodeCounts` always reports exactly the current
sizes of the three vectors; and after N non-forced enables of distinct peers
that fit under the configured maximum of 32, followed by M disables of
distinct peers drawn from those enabled, the blocks and txs counts are
exactly N − M and the upstream count is 0 (enables and disables never touch
the upstream set). If more peers are enabled than the maximum admits, the
count stays at the maximum instead of reaching N − M. -/
theorem expeditedNodeCounts_round_trip (ps qs : List CNodePtr)
    (hps : ps.Nodup) (hqs : qs.Nodup) (hsub : ∀ q ∈ qs, q ∈ ps)
    (hlen : ps.length ≤ 32) :
    (∀ s : CConnMgr, s.ExpeditedNodeCounts =
      (s.vSendExpeditedBlocks.length, s.vSendExpeditedTxs.length,
        s.vExpeditedUpstream.length)) ∧
    (runOps CConnMgr.init (enableOps ps ++ disableOps qs)).ExpeditedNodeCounts =
      (ps.length - qs.length, ps.length - qs.length, 0) := by
  refine ⟨fun s => rfl, ?_⟩
  rw [runOps_append]
  obtain ⟨e1, e2, e3, e4, e5⟩ := enable_grows ps CConnMgr.init
    (by simpa [CConnMgr.init] using hps) (by simpa [CConnMgr.init] using hps)
    (by simpa [CConnMgr.init] using hlen) (by simpa [CConnMgr.init] using hlen)
  obtain ⟨d1, d2, d3, d4, d5⟩ := disable_shrinks qs (runOps CConnMgr.init (enableOps ps))
  have hb : (ps.diff qs).length = ps.length - qs.length :=
    length_diff_of_nodup ps qs hps hqs hsub
  simp only [CConnMgr.ExpeditedNodeCounts, Prod.mk.injEq]
  refine ⟨?_, ?_, ?_⟩
  · rw [d1, e1, show CConnMgr.init.vSendExpeditedBlocks = [] from rfl, List.nil_append, hb]
  · rw [d2, e2, show CConnMgr.init.vSendExpeditedTxs = [] from rfl, List.nil_append, hb]
  · rw [d3, e3]
    rfl

/-- C7 amended-theorem witness: enabling peers 1, 2, 3 then disabling peer 2
yields counts (2, 2, 0). -/
theorem expeditedNodeCounts_round_trip_witness :
    (runOps CConnMgr.init (enableOps [1, 2, 3] ++ disableOps [2])).ExpeditedNodeCounts =
      (2, 2, 0) := by
  have h := expeditedNodeCounts_round_trip [1, 2, 3] [2]
    (by decide) (by decide) (by decide) (by decide)
  simpa using h.2

end BitcoinPV

namespace BitcoinPV

/-! ### StopAllValidationThreads / QuitReceived -/

theorem lookup_stopAll (m : PVMap) (self t : ThreadId) :
    pvLookup (StopAllValidationThreads m self) t =
      (pvLookup m t).map (fun e => if t = self then e else { e with fQuit := true }) := by
  induction m with
  | nil => rfl
  | cons kv m ih =>
    obtain ⟨k, v⟩ := kv
    by_cases htk : t = k
    · subst htk
      by_cases hts : t = self
      · subst hts
        simp [StopAllValidationThreads, pvLookup]
      · simp [StopAllValidationThreads, pvLookup, hts]
    · simpa [StopAllValidationThreads, pvLookup, htk] using ih

/-- C2 counterexample: a registry of two registered sessions that have both
already observed a full stop (the no-argument `StopAllValidationThreads()`
overload of the shutdown path sets `fQuit` on every session, thread 1
included). A subsequent `StopAllValidationThreads(1)` leaves thread 1's
flag untouched, so `QuitReceived` for the calling thread returns true — not
false as the claim states for every set of registered sessions. -/
theorem stopAllValidationThreads_self_counterexample :
    QuitReceived
      (StopAllValidationThreads
        (StopAllValidationThreadsShutdown
          [(1, ⟨0, 0, 0, 1, 0, 0, false⟩), (2, ⟨0, 0, 0, 2, 0, 0, false⟩)]) 1) 1 = true := by
  decide

/-- C2 (amended, spec-modelled): after `StopAllValidationThreads(self)`,
`QuitReceived` returns true for every other registered thread; the session
record of `self` is left untouched, so `QuitReceived` for `self` returns its
prior flag — in particular false whenever `self`'s session did not already
have `fQuit` set (as holds for any freshly admitted session), and false when
`self` has no registered session. -/
theorem stopAllValidationThreads_quit_semantics (m : PVMap) (self : ThreadId) :
    (∀ t, t ≠ self → ∀ e, pvLookup m t = some e →
      QuitReceived (StopAllValidationThreads m self) t = true) ∧
    (∀ e, pvLookup m self = some e →
      QuitReceived (StopAllValidationThreads m self) self = e.fQuit) ∧
    (pvLookup m self = none →
      QuitReceived (StopAllValidationThreads m self) self = false) := by
  refine ⟨?_, ?_, ?_⟩
  · intro t ht e he
    unfold QuitReceived
    rw [lookup_stopAll, he]
    simp [ht]
  · intro e he
    unfold QuitReceived
    rw [lookup_stopAll, he]
    simp
  · intro he
    unfold QuitReceived
    rw [lookup_stopAll, he]
    rfl

/-- C2 amended-theorem witness: two freshly admitted sessions (threads 1 and
2, `fQuit = false`); after `StopAllValidationThreads(1)`, thread 2 reads
true and thread 1 reads false. -/
theorem stopAllValidationThreads_quit_semantics_witness :
    QuitReceived
      (StopAllValidationThreads
        [(1, ⟨0, 0, 0, 1, 0, 0, false⟩), (2, ⟨0, 0, 0, 2, 0, 0, false⟩)] 1) 2 = true ∧
    QuitReceived
      (StopAllValidationThreads
        [(1, ⟨0, 0, 0, 1, 0, 0, false⟩), (2, ⟨0, 0, 0, 2, 0, 0, false⟩)] 1) 1 = false := by
  obtain ⟨a, b, _⟩ := stopAllValidationThreads_quit_semantics
    [(1, ⟨0, 0, 0, 1, 0, 0, false⟩), (2, ⟨0, 0, 0, 2, 0, 0, false⟩)] 1
  exact ⟨a 2 (by decide) ⟨0, 0, 0, 2, 0, 0, false⟩ rfl, b ⟨0, 0, 0, 1, 0, 0, false⟩ rfl⟩

/-- C10: the parameterized `CScriptCheck` constructor performs its two
indexings with no bounds check, so it is well-defined exactly when `nIn`
indexes `txTo.vin` and the referenced `prevout.n` indexes `txFrom.vout`;
under that precondition it stores exactly the referenced output's
`scriptPubKey`, a pointer to the spending transaction, the given index,
flags and cache flag, and initializes `error` to
`SCRIPT_ERR_UNKNOWN_ERROR`. -/
theorem cScriptCheck_construct_spec (txFrom : CCoins) (txTo : CTransaction)
    (nIn nFlags : Nat) (cache : Bool) :
    (∀ h1 : nIn < txTo.vin.length,
      ∀ h2 : (txTo.vin.get ⟨nIn, h1⟩).prevout.n < txFrom.vout.length,
      CScriptCheck.construct txFrom txTo nIn nFlags cache =
        some { scriptPubKey :=
                 (txFrom.vout.get ⟨(txTo.vin.get ⟨nIn, h1⟩).prevout.n, h2⟩).scriptPubKey
               ptxTo := some txTo
               nIn := nIn
               nFlags := nFlags
               cacheStore := cache
               error := ScriptError.SCRIPT_ERR_UNKNOWN_ERROR }) ∧
    ((CScriptCheck.construct txFrom txTo nIn nFlags cache).isSome = true ↔
      ∃ h1 : nIn < txTo.vin.length,
        (txTo.vin.get ⟨nIn, h1⟩).prevout.n < txFrom.vout.length) := by
  have main : ∀ (h1 : nIn < txTo.vin.length)
      (h2 : (txTo.vin.get ⟨nIn, h1⟩).prevout.n < txFrom.vout.length),
      CScriptCheck.construct txFrom txTo nIn nFlags cache =
        some { scriptPubKey :=
                 (txFrom.vout.get ⟨(txTo.vin.get ⟨nIn, h1⟩).prevout.n, h2⟩).scriptPubKey
               ptxTo := some txTo
               nIn := nIn
               nFlags := nFlags
               cacheStore := cache
               error := ScriptError.SCRIPT_ERR_UNKNOWN_ERROR } := by
    intro h1 h2
    simp only [List.get_eq_getElem] at h2 ⊢
    unfold CScriptCheck.construct
    rw [List.getElem?_eq_getElem h1]
    dsimp only
    rw [List.getElem?_eq_getElem h2]
  refine ⟨main, ?_, ?_⟩
  · intro hs
    unfold CScriptCheck.construct at hs
    cases hv : txTo.vin[nIn]? with
    | none =>
      rw [hv] at hs
      simp at hs
    | some txin =>
      rw [hv] at hs
      obtain ⟨h1, hval⟩ := List.getElem?_eq_some.mp hv
      refine ⟨h1, ?_⟩
      dsimp only at hs
      cases ho : txFrom.vout[txin.prevout.n]? with
      | none =>
        rw [ho] at hs
        simp at hs
      | some out =>
        obtain ⟨h2, _⟩ := List.getElem?_eq_some.mp ho
        simpa [List.get_eq_getElem, hval] using h2
  · rintro ⟨h1, h2⟩
    rw [main h1 h2]
    rfl

/-- C10 witness: a previous transaction with one output whose script is
`[170]`, a spending transaction whose input 0 references output 0; the
constructor succeeds and stores script `[170]` and error
`SCRIPT_ERR_UNKNOWN_ERROR`. -/
theorem cScriptCheck_construct_spec_witness :
    CScriptCheck.construct ⟨[⟨50, [170]⟩]⟩ ⟨[⟨⟨9, 0⟩⟩]⟩ 0 7 true =
      some { scriptPubKey := [170]
             ptxTo := some ⟨[⟨⟨9, 0⟩⟩]⟩
             nIn := 0
             nFlags := 7
             cacheStore := true
             error := ScriptError.SCRIPT_ERR_UNKNOWN_ERROR } := by
  have h := (cScriptCheck_construct_spec ⟨[⟨50, [170]⟩]⟩ ⟨[⟨⟨9, 0⟩⟩]⟩ 0 7 true).1
    (by decide) (by decide)
  simpa using h

end BitcoinPV
